import Mathlib

/-!
Verification of the client-side transaction coordinator of a distributed
key-value store (the `client` package: `DB.Txn`, `Txn`, `Batch`, `Sender`).

The repository snapshot contains the package's test suite (`txn_test.go`)
but not the implementation files themselves, so the coordinator is
modelled from the specification (begin-transaction elision,
end-transaction elision, timestamp ratcheting, retry classification,
commit-failure degradation to abort) and validated against the behaviours
the tests pin down.  All definitions are executable; theorems are proved
over this shallow embedding.
-/

namespace TxnClient

/-- Modelled from the spec: `roachpb.Timestamp` with a wall-clock and a
logical component, compared lexicographically. -/
structure Timestamp where
  wallTime : Nat
  logical : Nat
deriving DecidableEq

/-- Strict lexicographic order on timestamps (`Timestamp.Less`). -/
def Timestamp.less (t u : Timestamp) : Bool :=
  Nat.blt t.wallTime u.wallTime ||
    (Nat.beq t.wallTime u.wallTime && Nat.blt t.logical u.logical)

/-- Reflexive lexicographic order on timestamps. -/
def Timestamp.le (t u : Timestamp) : Bool :=
  Nat.blt t.wallTime u.wallTime ||
    (Nat.beq t.wallTime u.wallTime && Nat.ble t.logical u.logical)

/-- Modelled from the spec: the timestamp ratchet (`Timestamp.Forward`):
adopt the other timestamp only when it is strictly larger. -/
def Timestamp.forward (t u : Timestamp) : Timestamp :=
  if Timestamp.less t u then u else t

/-- Modelled from the spec: transaction status. -/
inductive TxnStatus
  | PENDING
  | COMMITTED
  | ABORTED
deriving DecidableEq

/-- `true` for the two terminal statuses. -/
def TxnStatus.isTerminal : TxnStatus → Bool
  | .PENDING => false
  | _ => true

/-- An operation a user can place in a batch (keys and values are not
relevant to the claims and are elided). -/
inductive UserOp
  | get
  | put
  | cput
  | inc
  | del
  | delRange
deriving DecidableEq

/-- `true` for the mutating operations (Put, ConditionalPut, Increment,
Delete, DeleteRange). -/
def UserOp.isMutating : UserOp → Bool
  | .get => false
  | _ => true

/-- A request as it appears in a transmitted batch: a user operation or
one of the control markers inserted by the coordinator. -/
inductive Req
  | get
  | put
  | cput
  | inc
  | del
  | delRange
  | beginTxn
  | endTxn (commit : Bool)
deriving DecidableEq

/-- Embed a user operation as a request. -/
def opReq : UserOp → Req
  | .get => .get
  | .put => .put
  | .cput => .cput
  | .inc => .inc
  | .del => .del
  | .delRange => .delRange

/-- `true` for the mutating key-value requests. -/
def Req.isMutatingOp : Req → Bool
  | .put | .cput | .inc | .del | .delRange => true
  | _ => false

/-- `true` for the end-transaction marker. -/
def Req.isEndTxn : Req → Bool
  | .endTxn _ => true
  | _ => false

/-- `true` for the begin-transaction marker. -/
def Req.isBeginTxn : Req → Bool
  | .beginTxn => true
  | _ => false

/-- Modelled from the spec: `roachpb.IsTransactionWrite` — every request
other than a read writes transactional state. -/
def Req.isTransactionWrite : Req → Bool
  | .get => false
  | _ => true

/-- Does the batch contain a mutating key-value operation? -/
def hasMutating (b : List Req) : Bool := b.any Req.isMutatingOp

/-- Does the batch contain no begin-transaction marker? -/
def noBeginTxn (b : List Req) : Bool := b.all (fun r => !r.isBeginTxn)

/-- The commit flag of the batch's trailing end-transaction marker, if
the batch ends with one. -/
def lastEndTxn (b : List Req) : Option Bool :=
  match b.getLast? with
  | some (.endTxn c) => some c
  | _ => none

/-- Modelled from the spec: insert a begin-transaction marker immediately
before the first mutating operation of the batch. -/
def insertBegin : List Req → List Req
  | [] => []
  | r :: rest =>
    if r.isMutatingOp then Req.beginTxn :: r :: rest
    else r :: insertBegin rest

/-- Modelled from the spec: the transaction record held by the client —
identity (present or not), timestamp, status and the writing flag. -/
structure TxnRecord where
  idSet : Bool
  ts : Timestamp
  status : TxnStatus
  writing : Bool
deriving DecidableEq

/-- Error kinds returned by the Sender, following the taxonomy of the
spec and the test table. -/
inductive ErrKind
  | readWithinUncertaintyInterval
  | transactionAborted
  | transactionPush
  | transactionRetry
  | rangeNotFound
  | rangeKeyMismatch
  | transactionStatus
deriving DecidableEq

/-- Modelled from the spec: classification of Sender error kinds into
retryable (the coordinator re-runs the closure) vs fatal. -/
def ErrKind.isRetryable : ErrKind → Bool
  | .readWithinUncertaintyInterval | .transactionAborted
  | .transactionPush | .transactionRetry => true
  | _ => false

/-- An error observed by the retry coordinator: either a kinded store
error or an opaque user error (distinguished by a tag). -/
inductive Err
  | kind (k : ErrKind)
  | plain (n : Nat)
deriving DecidableEq

/-- A retry-coordinator error is a retry signal exactly when it is a
retryable store-error kind. -/
def Err.isRetryable : Err → Bool
  | .kind k => k.isRetryable
  | .plain _ => false

/-- The Sender's reply: success carrying the response transaction
timestamp, or a kinded error. -/
inductive SendResult
  | ok (ts : Timestamp)
  | fail (k : ErrKind)

/-- The consumed Sender capability: given the index of the round trip and
the batch, produce a reply. -/
structure Env where
  sender : Nat → List Req → SendResult

/-- Observable execution state: the transaction record, the number of
Sender round trips, the batches handed to the Sender in order, and the
number of closure invocations. -/
structure World where
  st : TxnRecord
  nSends : Nat
  trace : List (List Req)
  attempts : Nat
deriving DecidableEq

/-- The fresh world at the start of a logical `DB.Txn` call. -/
def initialWorld : World :=
  { st := { idSet := false, ts := { wallTime := 0, logical := 0 },
            status := .PENDING, writing := false }
    nSends := 0
    trace := []
    attempts := 0 }

/-- Modelled from the spec: one Sender round trip together with the
client-side adoption of the response transaction record — the timestamp
is ratcheted, the writing flag is set once a transactional write has been
sent, the status follows a trailing end-transaction marker, and a
transaction-aborted error clears the transaction's identity. -/
def dbSend (env : Env) (w : World) (b : List Req) : World × Option ErrKind :=
  match env.sender w.nSends b with
  | .ok t =>
    ({ w with
        st := { idSet := true
                ts := Timestamp.forward w.st.ts t
                writing := w.st.writing || b.any Req.isTransactionWrite
                status := match lastEndTxn b with
                          | some true => .COMMITTED
                          | some false => .ABORTED
                          | none => w.st.status }
        nSends := w.nSends + 1
        trace := w.trace ++ [b] }, none)
  | .fail k =>
    let st1 := if k = ErrKind.transactionAborted then
                 { idSet := false, ts := w.st.ts,
                   status := TxnStatus.PENDING, writing := false }
               else w.st
    ({ w with st := st1, nSends := w.nSends + 1, trace := w.trace ++ [b] },
     some k)

/-- Record locally the terminal status of an elided end-transaction
marker (the implicit commit or abort that needs no round trip). -/
def setLocalStatus (w : World) (oc : Option Bool) : World :=
  match oc with
  | some true => { w with st := { w.st with status := .COMMITTED } }
  | some false => { w with st := { w.st with status := .ABORTED } }
  | none => w

/-- Modelled from the spec: `Txn.send` — lazily insert a
begin-transaction marker before the first mutating operation of the first
writing batch, elide a trailing end-transaction marker when the
transaction has never written (recording the terminal status locally),
and dispatch whatever remains. -/
def txnSendCore (env : Env) (w : World) (b : List Req) : World × Option ErrKind :=
  if b.isEmpty then (w, none)
  else
    let oc := lastEndTxn b
    let hasW := hasMutating b
    let needBegin := !w.st.writing && hasW
    let elide := oc.isSome && !w.st.writing && !hasW
    let b1 := if needBegin then insertBegin b else b
    let b2 := if elide then b1.dropLast else b1
    if b2.isEmpty then (setLocalStatus w oc, none)
    else
      match dbSend env w b2 with
      | (w1, none) => (if elide then setLocalStatus w1 oc else w1, none)
      | (w1, some k) => (w1, some k)

/-- Send an end-transaction(commit=false) marker, discarding any error —
the cleanup path of a failed commit or a failed closure. -/
def rollbackQuiet (env : Env) (w : World) : World :=
  (txnSendCore env w [Req.endTxn false]).1

/-- Modelled from the spec: `Txn.send` including commit-failure
degradation — when a batch that actually carries an
end-transaction(commit=true) marker fails, an explicit abort is attempted
before the error surfaces (after a transaction-aborted error the
transaction record was reset, so that abort is elided). -/
def txnSend (env : Env) (w : World) (b : List Req) : World × Option ErrKind :=
  let commitSent := (lastEndTxn b = some true) && (w.st.writing || hasMutating b)
  match txnSendCore env w b with
  | (w1, none) => (w1, none)
  | (w1, some k) => (if commitSent then rollbackQuiet env w1 else w1, some k)

/-- Modelled from the spec: `Txn.CommitInBatch` request construction —
append an end-transaction(commit=true) marker to the caller's batch
unless it already ends with a terminal marker. -/
def commitInBatchReqs (ops : List UserOp) (oc : Option Bool) : List Req :=
  let b := ops.map opReq ++ (match oc with
                             | some c => [Req.endTxn c]
                             | none => [])
  if (lastEndTxn b).isSome then b else b ++ [Req.endTxn true]

/-- One step a user closure can take against the transaction handle. -/
inductive Cmd
  | doOp (op : UserOp)
  | doCommit
  | doRollback
  | doCommitInBatch (ops : List UserOp) (oc : Option Bool)

/-- Run one closure step: convenience operations send a one-operation
batch; `Commit`/`Rollback` send a lone terminal marker;
`CommitInBatch` sends the caller-built batch with its terminal marker. -/
def runCmd (env : Env) (w : World) : Cmd → World × Option ErrKind
  | .doOp op => txnSend env w [opReq op]
  | .doCommit => txnSend env w [Req.endTxn true]
  | .doRollback => txnSend env w [Req.endTxn false]
  | .doCommitInBatch ops oc => txnSend env w (commitInBatchReqs ops oc)

/-- Run the closure's steps in order, stopping at (and propagating) the
first error, as the test closures do. -/
def runCmds (env : Env) (w : World) : List Cmd → World × Option ErrKind
  | [] => (w, none)
  | c :: cs =>
    match runCmd env w c with
    | (w1, none) => runCmds env w1 cs
    | (w1, some k) => (w1, some k)

/-- What the closure returns after its steps succeeded. -/
inductive Finish
  | ok
  | failWith (e : Err)

/-- One invocation's behaviour of a user closure: the steps it issues and
what it returns when they all succeed. -/
structure Attempt where
  cmds : List Cmd
  finish : Finish

/-- Run one closure invocation: bump the invocation count, run the steps,
propagate a step error, otherwise return the closure's own result. -/
def runAttempt (env : Env) (w : World) (att : Attempt) : World × Option Err :=
  let w0 := { w with attempts := w.attempts + 1 }
  match runCmds env w0 att.cmds with
  | (w1, some k) => (w1, some (Err.kind k))
  | (w1, none) =>
    match att.finish with
    | .ok => (w1, none)
    | .failWith e => (w1, some e)

/-- Modelled from the spec: the retry coordinator's attempt loop — on
closure success send the implicit end-transaction(commit=true) unless the
transaction was already terminated inside the closure (the no-write case
elides it); on a retry-signal error run the next attempt; surface any
other error.  The attempt list bounds the retries. -/
def execLoop (env : Env) (att : Attempt) (rest : List Attempt) (w : World) :
    World × Option Err :=
  match runAttempt env w att with
  | (w1, none) =>
    if w1.st.status = TxnStatus.PENDING then
      match txnSend env w1 [Req.endTxn true] with
      | (w2, none) => (w2, none)
      | (w2, some k) => (w2, some (Err.kind k))
    else (w1, none)
  | (w1, some e) =>
    if e.isRetryable then
      match rest with
      | [] => (w1, some e)
      | a :: rest1 => execLoop env a rest1 w1
    else (w1, some e)

/-- Modelled from the spec: `DB.Txn` — run the attempt loop from a fresh
transaction and, when an error surfaces with the transaction still
pending, guarantee a terminal state by an explicit abort (elided when the
transaction never wrote). -/
def dbTxn (env : Env) (att : Attempt) (rest : List Attempt) : World × Option Err :=
  match execLoop env att rest initialWorld with
  | (w1, none) => (w1, none)
  | (w1, some e) =>
    ((if w1.st.status = TxnStatus.PENDING then rollbackQuiet env w1 else w1),
     some e)

/-- All requests handed to the Sender, flattened in transmission order. -/
def sentReqs (tr : List (List Req)) : List Req := tr.flatten

/-- The commit flags of every end-transaction marker handed to the
Sender, in transmission order. -/
def etFlags (tr : List (List Req)) : List Bool :=
  (sentReqs tr).filterMap (fun r => match r with
                                    | .endTxn c => some c
                                    | _ => none)

/-- A Sender that always succeeds, answering the `n`-th round trip with
timestamp `f n`. -/
def okEnv (f : Nat → Timestamp) : Env := ⟨fun n _ => SendResult.ok (f n)⟩

/-- The zero timestamp. -/
def ts0 : Timestamp := { wallTime := 0, logical := 0 }

/-- A Sender that always succeeds with the zero timestamp. -/
def constOkEnv : Env := okEnv (fun _ => ts0)

/-- A Sender that fails the first round trip with kind `k` and succeeds
afterwards — the shape of `TestRunTransactionRetryOnErrors`. -/
def failFirstEnv (k : ErrKind) : Env :=
  ⟨fun n _ => if n = 0 then SendResult.fail k else SendResult.ok ts0⟩

/-- A Sender that fails every batch carrying an explicit
end-transaction(commit=true) marker with kind `k` and succeeds on
everything else — the shape of `TestAbortTransactionOnCommitErrors`. -/
def commitFailEnv (k : ErrKind) : Env :=
  ⟨fun _ b => if lastEndTxn b = some true then SendResult.fail k
              else SendResult.ok ts0⟩

/-- Scanning a batch not yet inside a writing transaction: every request
before the begin-transaction marker is non-mutating, the marker is
immediately followed by a mutating operation, and no further marker
occurs.  Reaching the end without a marker fails (the caller only asks
this of batches that do contain a mutation). -/
def beginBeforeFirstMut : List Req → Bool
  | [] => false
  | r :: rest =>
    if r.isBeginTxn then
      (match rest with
       | r1 :: _ => r1.isMutatingOp
       | [] => false) && noBeginTxn rest
    else
      !r.isMutatingOp && beginBeforeFirstMut rest

/-- The begin-marker discipline of a single transmitted batch: once the
transaction has begun no batch carries a begin marker; before that, a
batch carries a begin marker exactly when it contains a mutation, placed
immediately before the first mutating operation. -/
def batchBeginOk (begun : Bool) (b : List Req) : Bool :=
  if begun then noBeginTxn b
  else if hasMutating b then beginBeforeFirstMut b
  else noBeginTxn b

/-- The begin-marker discipline over a whole transmission trace,
threading whether the transaction has already begun (a batch with a
mutating operation starts the written transaction). -/
def traceBeginOk : Bool → List (List Req) → Bool
  | _, [] => true
  | begun, b :: rest =>
    batchBeginOk begun b && traceBeginOk (begun || hasMutating b) rest

/-- The requests of an optional trailing end-transaction marker. -/
def etOpt : Option Bool → List Req
  | some c => [Req.endTxn c]
  | none => []

/-- The normal form of every batch a closure step can submit: embedded
user operations followed by at most one trailing end-transaction
marker. -/
def nfBatch (ops : List UserOp) (oc : Option Bool) : List Req :=
  ops.map opReq ++ etOpt oc

/-- The two-part begin-marker invariant tying the transaction record to
the transmission trace: the writing flag records exactly whether some
sent batch contained a mutation, and the whole trace obeys the
begin-marker discipline. -/
def beginInv (w : World) : Prop :=
  w.st.writing = w.trace.any hasMutating ∧ traceBeginOk false w.trace = true

/-- The commit flags of the end-transaction markers of one batch. -/
def batchEtFlags (b : List Req) : List Bool :=
  b.filterMap (fun r => match r with
                        | .endTxn c => some c
                        | _ => none)

/-- The three ways a closure can explicitly terminate its transaction:
`Commit`, `Rollback`, or `CommitInBatch` over a caller-built batch. -/
inductive TermCmd
  | commit
  | rollback
  | commitInBatch (ops : List UserOp) (oc : Option Bool)

/-- The closure step corresponding to an explicit termination. -/
def TermCmd.toCmd : TermCmd → Cmd
  | .commit => .doCommit
  | .rollback => .doRollback
  | .commitInBatch ops oc => .doCommitInBatch ops oc

section Lemmas

variable {f : Nat → Timestamp}

theorem isMutatingOp_opReq (o : UserOp) :
    (opReq o).isMutatingOp = o.isMutating := by
  cases o <;> rfl

theorem isTransactionWrite_opReq (o : UserOp) :
    (opReq o).isTransactionWrite = o.isMutating := by
  cases o <;> rfl

theorem isBeginTxn_opReq (o : UserOp) : (opReq o).isBeginTxn = false := by
  cases o <;> rfl

theorem isEndTxn_opReq (o : UserOp) : (opReq o).isEndTxn = false := by
  cases o <;> rfl

theorem lastEndTxn_mapOps (ops : List UserOp) :
    lastEndTxn (ops.map opReq) = none := by
  induction ops with
  | nil => rfl
  | cons o rest ih =>
    cases rest with
    | nil => cases o <;> rfl
    | cons o1 rest1 =>
      simpa [lastEndTxn, List.getLast?_cons_cons] using ih

theorem lastEndTxn_concat (l : List Req) (c : Bool) :
    lastEndTxn (l ++ [Req.endTxn c]) = some c := by
  simp [lastEndTxn, List.getLast?_concat]

theorem hasMutating_mapOps (ops : List UserOp) :
    hasMutating (ops.map opReq) = ops.any UserOp.isMutating := by
  induction ops with
  | nil => rfl
  | cons o rest ih =>
    simp [hasMutating, isMutatingOp_opReq] at ih ⊢
    rw [ih]

theorem anyTxnWrite_mapOps (ops : List UserOp) :
    (ops.map opReq).any Req.isTransactionWrite = ops.any UserOp.isMutating := by
  induction ops with
  | nil => rfl
  | cons o rest ih =>
    simp [isTransactionWrite_opReq] at ih ⊢
    rw [ih]

theorem noBeginTxn_mapOps (ops : List UserOp) :
    noBeginTxn (ops.map opReq) = true := by
  induction ops with
  | nil => rfl
  | cons o rest ih =>
    simp only [List.map_cons, noBeginTxn, List.all_cons, isBeginTxn_opReq,
      Bool.not_false, Bool.true_and]
    exact ih

theorem etFlags_append (tr : List (List Req)) (b : List Req) :
    etFlags (tr ++ [b]) = etFlags tr ++ batchEtFlags b := by
  simp [etFlags, sentReqs, batchEtFlags]

theorem batchEtFlags_opReq (op : UserOp) :
    batchEtFlags [opReq op] = [] := by
  cases op <;> rfl

theorem batchEtFlags_begin_opReq (op : UserOp) :
    batchEtFlags [Req.beginTxn, opReq op] = [] := by
  cases op <;> rfl

theorem batchEtFlags_opBatch (c : Bool) (op : UserOp) :
    batchEtFlags (if c then [Req.beginTxn, opReq op] else [opReq op]) = [] := by
  cases c <;> simp [batchEtFlags_begin_opReq, batchEtFlags_opReq]

/-- Closed form of one convenience-operation round trip against an
always-succeeding Sender. -/
theorem op_step (f : Nat → Timestamp) (w : World) (op : UserOp) :
    runCmd (okEnv f) w (.doOp op) =
      ({ w with
          st := { idSet := true
                  ts := Timestamp.forward w.st.ts (f w.nSends)
                  writing := w.st.writing || op.isMutating
                  status := w.st.status }
          nSends := w.nSends + 1
          trace := w.trace ++
            [if !w.st.writing && op.isMutating then [Req.beginTxn, opReq op]
             else [opReq op]] }, none) := by
  cases hw : w.st.writing <;> cases op <;>
    simp [runCmd, txnSend, txnSendCore, dbSend, okEnv, hw, insertBegin,
      lastEndTxn, hasMutating, setLocalStatus, Req.isMutatingOp,
      Req.isTransactionWrite, opReq, UserOp.isMutating]

/-- Running a list of convenience operations against an
always-succeeding Sender: no error, status preserved, the writing flag
accumulates exactly the presence of a mutating operation, no
end-transaction marker is sent, the invocation count is untouched. -/
theorem opsRun (f : Nat → Timestamp) (ops : List UserOp) (w : World) :
    (runCmds (okEnv f) w (ops.map Cmd.doOp)).2 = none ∧
    (runCmds (okEnv f) w (ops.map Cmd.doOp)).1.st.status = w.st.status ∧
    (runCmds (okEnv f) w (ops.map Cmd.doOp)).1.st.writing
      = (w.st.writing || ops.any UserOp.isMutating) ∧
    etFlags (runCmds (okEnv f) w (ops.map Cmd.doOp)).1.trace = etFlags w.trace ∧
    (runCmds (okEnv f) w (ops.map Cmd.doOp)).1.attempts = w.attempts := by
  induction ops generalizing w with
  | nil => simp [runCmds]
  | cons o rest ih =>
    rw [List.map_cons, runCmds, op_step]
    obtain ⟨h1, h2, h3, h4, h5⟩ := ih
      ({ w with
          st := { idSet := true
                  ts := Timestamp.forward w.st.ts (f w.nSends)
                  writing := w.st.writing || o.isMutating
                  status := w.st.status }
          nSends := w.nSends + 1
          trace := w.trace ++
            [if !w.st.writing && o.isMutating then [Req.beginTxn, opReq o]
             else [opReq o]] })
    refine ⟨h1, h2, ?_, ?_, h5⟩
    · rw [h3]
      simp [Bool.or_assoc]
    · rw [h4, etFlags_append, batchEtFlags_opBatch]
      simp

/-- A lone end-transaction marker sent by a transaction that has
written: it goes over the wire and the response status is adopted. -/
theorem endTxn_step_writing (f : Nat → Timestamp) (w : World) (c : Bool)
    (hw : w.st.writing = true) :
    txnSend (okEnv f) w [Req.endTxn c] =
      ({ w with
          st := { idSet := true
                  ts := Timestamp.forward w.st.ts (f w.nSends)
                  writing := true
                  status := if c then .COMMITTED else .ABORTED }
          nSends := w.nSends + 1
          trace := w.trace ++ [[Req.endTxn c]] }, none) := by
  cases c <;>
    simp [txnSend, txnSendCore, dbSend, okEnv, hw, insertBegin, lastEndTxn,
      hasMutating, setLocalStatus, Req.isMutatingOp, Req.isTransactionWrite]

/-- A lone end-transaction marker sent by a transaction that never
wrote: it is elided, nothing is sent, the terminal status is recorded
locally. -/
theorem endTxn_step_readonly (f : Nat → Timestamp) (w : World) (c : Bool)
    (hw : w.st.writing = false) :
    txnSend (okEnv f) w [Req.endTxn c] =
      ({ w with st := { w.st with
          status := if c then .COMMITTED else .ABORTED } }, none) := by
  cases c <;>
    simp [txnSend, txnSendCore, dbSend, okEnv, hw, insertBegin, lastEndTxn,
      hasMutating, setLocalStatus, Req.isMutatingOp, Req.isTransactionWrite]

/-- The cleanup abort of a transaction that has written sends the
end-transaction(commit=false) marker. -/
theorem rollbackQuiet_writing (f : Nat → Timestamp) (w : World)
    (hw : w.st.writing = true) :
    rollbackQuiet (okEnv f) w =
      { w with
          st := { idSet := true
                  ts := Timestamp.forward w.st.ts (f w.nSends)
                  writing := true
                  status := .ABORTED }
          nSends := w.nSends + 1
          trace := w.trace ++ [[Req.endTxn false]] } := by
  simp [rollbackQuiet, txnSendCore, dbSend, okEnv, hw, insertBegin,
    lastEndTxn, hasMutating, setLocalStatus, Req.isMutatingOp,
    Req.isTransactionWrite]

/-- The cleanup abort of a transaction that never wrote is elided. -/
theorem rollbackQuiet_readonly (f : Nat → Timestamp) (w : World)
    (hw : w.st.writing = false) :
    rollbackQuiet (okEnv f) w =
      { w with st := { w.st with status := .ABORTED } } := by
  simp [rollbackQuiet, txnSendCore, dbSend, okEnv, hw, insertBegin,
    lastEndTxn, hasMutating, setLocalStatus, Req.isMutatingOp,
    Req.isTransactionWrite]

theorem prodEq {α β : Type} (p : α × β) {b : β} (h : p.2 = b) : p = (p.1, b) := by
  rw [← h]

theorem hasMutating_etOpt (oc : Option Bool) :
    hasMutating (etOpt oc) = false := by
  cases oc <;> rfl

theorem anyTxnWrite_etOpt_none : (etOpt none).any Req.isTransactionWrite = false := rfl

theorem hasMutating_append (l1 l2 : List Req) :
    hasMutating (l1 ++ l2) = (hasMutating l1 || hasMutating l2) := by
  simp [hasMutating]

theorem isMutatingOp_beginTxn : Req.beginTxn.isMutatingOp = false := rfl

theorem isMutatingOp_endTxn (c : Bool) : (Req.endTxn c).isMutatingOp = false := rfl

theorem isBeginTxn_beginTxn : Req.beginTxn.isBeginTxn = true := rfl

theorem noBeginTxn_cons (r : Req) (rest : List Req) :
    noBeginTxn (r :: rest) = (!r.isBeginTxn && noBeginTxn rest) := by
  simp [noBeginTxn]

theorem hasMutating_nfBatch (ops : List UserOp) (oc : Option Bool) :
    hasMutating (nfBatch ops oc) = ops.any UserOp.isMutating := by
  rw [nfBatch, hasMutating_append, hasMutating_etOpt, hasMutating_mapOps]
  simp

theorem lastEndTxn_nfBatch (ops : List UserOp) (oc : Option Bool) :
    lastEndTxn (nfBatch ops oc) = oc := by
  cases oc with
  | some c => simpa [nfBatch, etOpt] using lastEndTxn_concat (ops.map opReq) c
  | none => simpa [nfBatch, etOpt] using lastEndTxn_mapOps ops

theorem noBeginTxn_etOpt (oc : Option Bool) : noBeginTxn (etOpt oc) = true := by
  cases oc <;> rfl

theorem noBeginTxn_append (l1 l2 : List Req) :
    noBeginTxn (l1 ++ l2) = (noBeginTxn l1 && noBeginTxn l2) := by
  simp [noBeginTxn]

theorem noBeginTxn_nfBatch (ops : List UserOp) (oc : Option Bool) :
    noBeginTxn (nfBatch ops oc) = true := by
  rw [nfBatch, noBeginTxn_append, noBeginTxn_mapOps, noBeginTxn_etOpt]
  rfl

theorem dropLast_nfBatch_some (ops : List UserOp) (c : Bool) :
    (nfBatch ops (some c)).dropLast = ops.map opReq := by
  simp [nfBatch, etOpt]

theorem anyTxnWrite_nfBatch_none (ops : List UserOp) :
    (nfBatch ops none).any Req.isTransactionWrite = ops.any UserOp.isMutating := by
  simpa [nfBatch, etOpt] using anyTxnWrite_mapOps ops

theorem hasMutating_insertBegin (b : List Req) :
    hasMutating (insertBegin b) = hasMutating b := by
  induction b with
  | nil => rfl
  | cons r rest ih =>
    by_cases hr : r.isMutatingOp = true
    · simp [insertBegin, hr, hasMutating, isMutatingOp_beginTxn]
    · have hr1 : r.isMutatingOp = false := by simpa using hr
      simp [insertBegin, hr1, hasMutating] at ih ⊢
      rw [ih]

theorem isTransactionWrite_of_isMutatingOp (r : Req)
    (h : r.isMutatingOp = true) : r.isTransactionWrite = true := by
  cases r <;> first | rfl | exact absurd h (by decide)

theorem anyTxnWrite_of_hasMutating (b : List Req) (h : hasMutating b = true) :
    b.any Req.isTransactionWrite = true := by
  simp [hasMutating] at h
  obtain ⟨r, hr, hm⟩ := h
  simp
  exact ⟨r, hr, isTransactionWrite_of_isMutatingOp r hm⟩

theorem beginBeforeFirstMut_insertBegin (b : List Req)
    (hnb : noBeginTxn b = true) (hm : hasMutating b = true) :
    beginBeforeFirstMut (insertBegin b) = true := by
  induction b with
  | nil => exact absurd hm (by decide)
  | cons r rest ih =>
    rw [noBeginTxn_cons, Bool.and_eq_true] at hnb
    obtain ⟨hnbr, hnbrest⟩ := hnb
    rw [Bool.not_eq_true'] at hnbr
    by_cases hr : r.isMutatingOp = true
    · simp [insertBegin, hr, beginBeforeFirstMut, isBeginTxn_beginTxn,
        noBeginTxn_cons, hnbr, hnbrest]
    · have hr1 : r.isMutatingOp = false := by simpa using hr
      have hmrest : hasMutating rest = true := by
        simpa [hasMutating, hr1] using hm
      simp [insertBegin, hr1, beginBeforeFirstMut, hnbr]
      exact ih hnbrest hmrest

theorem traceBeginOk_append (tr : List (List Req)) (b : List Req) (g : Bool) :
    traceBeginOk g (tr ++ [b])
      = (traceBeginOk g tr && batchBeginOk (g || tr.any hasMutating) b) := by
  induction tr generalizing g with
  | nil => simp [traceBeginOk]
  | cons hd tl ih =>
    simp only [List.cons_append, traceBeginOk, List.append_eq]
    rw [ih]
    simp only [List.any_cons, Bool.and_assoc, Bool.or_assoc]

theorem dbSend_okEnv (f : Nat → Timestamp) (w : World) (b : List Req) :
    dbSend (okEnv f) w b =
      ({ w with
          st := { idSet := true
                  ts := Timestamp.forward w.st.ts (f w.nSends)
                  writing := w.st.writing || b.any Req.isTransactionWrite
                  status := match lastEndTxn b with
                            | some true => .COMMITTED
                            | some false => .ABORTED
                            | none => w.st.status }
          nSends := w.nSends + 1
          trace := w.trace ++ [b] }, none) := rfl

theorem isEmpty_false_of_hasMutating (l : List Req) (h : hasMutating l = true) :
    l.isEmpty = false := by
  cases l with
  | nil => exact absurd h (by decide)
  | cons a t => rfl

theorem isEmpty_false_of_lastEndTxn (l : List Req) (c : Bool)
    (h : lastEndTxn l = some c) : l.isEmpty = false := by
  cases l with
  | nil => simp [lastEndTxn] at h
  | cons a t => rfl

/-- `Txn.send` on a transaction that is already writing: the batch goes
over the wire unmodified. -/
theorem txnSendCore_writing (f : Nat → Timestamp) (w : World) (b : List Req)
    (hb : b.isEmpty = false) (hw : w.st.writing = true) :
    txnSendCore (okEnv f) w b = dbSend (okEnv f) w b := by
  simp [txnSendCore, hb, hw, dbSend_okEnv]

/-- `Txn.send` on a fresh transaction submitting a batch with a
mutation: the begin marker is inserted and the batch goes over the
wire. -/
theorem txnSendCore_fresh_mutating (f : Nat → Timestamp) (w : World)
    (b : List Req) (hw : w.st.writing = false) (hm : hasMutating b = true) :
    txnSendCore (okEnv f) w b = dbSend (okEnv f) w (insertBegin b) := by
  have hb : b.isEmpty = false := isEmpty_false_of_hasMutating b hm
  have hb1 : (insertBegin b).isEmpty = false :=
    isEmpty_false_of_hasMutating _ ((hasMutating_insertBegin b).trans hm)
  simp [txnSendCore, hb, hb1, hw, hm, dbSend_okEnv]

/-- `Txn.send` on a fresh transaction submitting a read-only batch with
no terminal marker: the batch goes over the wire unmodified. -/
theorem txnSendCore_fresh_reads (f : Nat → Timestamp) (w : World)
    (b : List Req) (hb : b.isEmpty = false) (hw : w.st.writing = false)
    (hm : hasMutating b = false) (hoc : lastEndTxn b = none) :
    txnSendCore (okEnv f) w b = dbSend (okEnv f) w b := by
  simp [txnSendCore, hb, hw, hm, hoc, dbSend_okEnv]

/-- `Txn.send` on a never-writing transaction whose batch is nothing but
a terminal marker: the marker is elided, nothing is sent, the terminal
status is recorded locally. -/
theorem txnSendCore_elide_empty (f : Nat → Timestamp) (w : World)
    (b : List Req) (c : Bool) (hw : w.st.writing = false)
    (hm : hasMutating b = false) (hoc : lastEndTxn b = some c)
    (hd : b.dropLast.isEmpty = true) :
    txnSendCore (okEnv f) w b = (setLocalStatus w (some c), none) := by
  have hb : b.isEmpty = false := isEmpty_false_of_lastEndTxn b c hoc
  simp [txnSendCore, hb, hw, hm, hoc, hd]

/-- `Txn.send` on a never-writing transaction whose batch carries reads
plus a terminal marker: the marker is elided, the reads go over the
wire, the terminal status is recorded locally. -/
theorem txnSendCore_elide_reads (f : Nat → Timestamp) (w : World)
    (b : List Req) (c : Bool) (hw : w.st.writing = false)
    (hm : hasMutating b = false) (hoc : lastEndTxn b = some c)
    (hd : b.dropLast.isEmpty = false) :
    txnSendCore (okEnv f) w b =
      (setLocalStatus (dbSend (okEnv f) w b.dropLast).1 (some c), none) := by
  have hb : b.isEmpty = false := isEmpty_false_of_lastEndTxn b c hoc
  simp [txnSendCore, hb, hw, hm, hoc, hd, dbSend_okEnv]

/-- Appending a sent batch that obeys the begin-marker discipline, with
the writing flag absorbing the batch's mutation content, preserves the
begin-marker invariant. -/
theorem beginInv_push (w w1 : World) (b : List Req)
    (hT : beginInv w)
    (hwr : w1.st.writing = (w.st.writing || hasMutating b))
    (htr : w1.trace = w.trace ++ [b])
    (hok : batchBeginOk w.st.writing b = true) :
    beginInv w1 := by
  obtain ⟨h1, h2⟩ := hT
  constructor
  · rw [hwr, htr, List.any_append, h1]
    simp
  · rw [htr, traceBeginOk_append, h2, ← h1]
    simpa using hok

/-- A successful round trip whose batch obeys the begin-marker
discipline (and whose transaction-write content agrees with its mutation
content as far as the writing flag is concerned) preserves the
begin-marker invariant. -/
theorem beginInv_dbSend (f : Nat → Timestamp) (w : World) (b : List Req)
    (h : beginInv w)
    (hok : batchBeginOk w.st.writing b = true)
    (hwr : (w.st.writing || b.any Req.isTransactionWrite)
            = (w.st.writing || hasMutating b)) :
    beginInv ((dbSend (okEnv f) w b).1) := by
  refine beginInv_push w _ b h ?_ ?_ hok
  · exact hwr
  · rfl

/-- Recording a local terminal status touches neither the writing flag
nor the trace, so it preserves the begin-marker invariant. -/
theorem beginInv_setLocalStatus (w : World) (oc : Option Bool)
    (h : beginInv w) : beginInv (setLocalStatus w oc) := by
  cases oc with
  | none => exact h
  | some c => cases c <;> exact h

/-- Every closure-shaped batch submitted through `Txn.send` against an
always-succeeding Sender preserves the begin-marker invariant. -/
theorem beginInv_txnSendCore (f : Nat → Timestamp) (w : World)
    (ops : List UserOp) (oc : Option Bool) (h : beginInv w) :
    beginInv ((txnSendCore (okEnv f) w (nfBatch ops oc)).1) := by
  by_cases hemp : (nfBatch ops oc).isEmpty = true
  · simp only [txnSendCore, hemp, if_true]
    exact h
  · have hemp1 : (nfBatch ops oc).isEmpty = false := by simpa using hemp
    by_cases hw : w.st.writing = true
    · rw [txnSendCore_writing f w _ hemp1 hw]
      refine beginInv_dbSend f w _ h ?_ ?_
      · simp [batchBeginOk, hw, noBeginTxn_nfBatch]
      · rw [hw]
        simp
    · have hw1 : w.st.writing = false := by simpa using hw
      by_cases hm : ops.any UserOp.isMutating = true
      · have hmb : hasMutating (nfBatch ops oc) = true := by
          rw [hasMutating_nfBatch, hm]
        rw [txnSendCore_fresh_mutating f w _ hw1 hmb]
        have hmb1 : hasMutating (insertBegin (nfBatch ops oc)) = true := by
          rw [hasMutating_insertBegin, hmb]
        refine beginInv_dbSend f w _ h ?_ ?_
        · simp only [batchBeginOk, hw1, Bool.false_eq_true, if_false, hmb1,
            if_true]
          exact beginBeforeFirstMut_insertBegin _ (noBeginTxn_nfBatch ops oc)
            hmb
        · rw [hw1, anyTxnWrite_of_hasMutating _ hmb1, hmb1]
      · have hm1 : ops.any UserOp.isMutating = false := by simpa using hm
        have hmb : hasMutating (nfBatch ops oc) = false := by
          rw [hasMutating_nfBatch, hm1]
        cases oc with
        | none =>
          rw [txnSendCore_fresh_reads f w _ hemp1 hw1 hmb
            (lastEndTxn_nfBatch ops none)]
          refine beginInv_dbSend f w _ h ?_ ?_
          · simp [batchBeginOk, hw1, hmb, noBeginTxn_nfBatch]
          · rw [hw1, anyTxnWrite_nfBatch_none, hm1, hmb]
        | some c =>
          by_cases hd : (nfBatch ops (some c)).dropLast.isEmpty = true
          · rw [txnSendCore_elide_empty f w _ c hw1 hmb
              (lastEndTxn_nfBatch ops (some c)) hd]
            exact beginInv_setLocalStatus w (some c) h
          · have hd1 : (nfBatch ops (some c)).dropLast.isEmpty = false := by
              simpa using hd
            rw [txnSendCore_elide_reads f w _ c hw1 hmb
              (lastEndTxn_nfBatch ops (some c)) hd1]
            refine beginInv_setLocalStatus _ (some c) ?_
            refine beginInv_dbSend f w _ h ?_ ?_
            · rw [dropLast_nfBatch_some]
              have hmm : hasMutating (ops.map opReq) = false := by
                rw [hasMutating_mapOps, hm1]
              simp [batchBeginOk, hw1, hmm, noBeginTxn_mapOps]
            · rw [dropLast_nfBatch_some, hw1]
              have h2 := anyTxnWrite_mapOps ops
              rw [h2, hm1]
              have hmm : hasMutating (ops.map opReq) = false := by
                rw [hasMutating_mapOps, hm1]
              rw [hmm]

theorem opBatch_nf (op : UserOp) : [opReq op] = nfBatch [op] none := by
  simp [nfBatch, etOpt]

theorem commitBatch_nf : [Req.endTxn true] = nfBatch [] (some true) := rfl

theorem rollbackBatch_nf : [Req.endTxn false] = nfBatch [] (some false) := rfl

theorem commitInBatchReqs_eq (ops : List UserOp) (oc : Option Bool) :
    commitInBatchReqs ops oc = nfBatch ops (some (oc.getD true)) := by
  cases oc with
  | some c => simp [commitInBatchReqs, nfBatch, etOpt, lastEndTxn_concat]
  | none => simp [commitInBatchReqs, nfBatch, etOpt, lastEndTxn_mapOps]

theorem txnSendCore_okEnv_noErr (f : Nat → Timestamp) (w : World)
    (b : List Req) : (txnSendCore (okEnv f) w b).2 = none := by
  simp only [txnSendCore, dbSend_okEnv]
  repeat' split
  all_goals rfl

theorem txnSend_okEnv (f : Nat → Timestamp) (w : World) (b : List Req) :
    txnSend (okEnv f) w b = ((txnSendCore (okEnv f) w b).1, none) := by
  unfold txnSend
  rw [prodEq _ (txnSendCore_okEnv_noErr f w b)]

theorem beginInv_txnSend_nf (f : Nat → Timestamp) (w : World)
    (ops : List UserOp) (oc : Option Bool) (h : beginInv w) :
    beginInv ((txnSend (okEnv f) w (nfBatch ops oc)).1) := by
  rw [txnSend_okEnv]
  exact beginInv_txnSendCore f w ops oc h

theorem runCmd_okEnv_noErr (f : Nat → Timestamp) (w : World) (c : Cmd) :
    (runCmd (okEnv f) w c).2 = none := by
  cases c <;> simp only [runCmd, txnSend_okEnv]

theorem beginInv_runCmd (f : Nat → Timestamp) (w : World) (c : Cmd)
    (h : beginInv w) : beginInv ((runCmd (okEnv f) w c).1) := by
  cases c with
  | doOp op =>
    simp only [runCmd, opBatch_nf]
    exact beginInv_txnSend_nf f w [op] none h
  | doCommit =>
    simp only [runCmd, commitBatch_nf]
    exact beginInv_txnSend_nf f w [] (some true) h
  | doRollback =>
    simp only [runCmd, rollbackBatch_nf]
    exact beginInv_txnSend_nf f w [] (some false) h
  | doCommitInBatch ops oc =>
    simp only [runCmd, commitInBatchReqs_eq]
    exact beginInv_txnSend_nf f w ops (some (oc.getD true)) h

theorem runCmds_okEnv_noErr (f : Nat → Timestamp) (w : World) (cs : List Cmd) :
    (runCmds (okEnv f) w cs).2 = none := by
  induction cs generalizing w with
  | nil => rfl
  | cons c cs1 ih =>
    rw [runCmds, prodEq _ (runCmd_okEnv_noErr f w c)]
    exact ih _

theorem beginInv_runCmds (f : Nat → Timestamp) (w : World) (cs : List Cmd)
    (h : beginInv w) : beginInv ((runCmds (okEnv f) w cs).1) := by
  induction cs generalizing w with
  | nil => exact h
  | cons c cs1 ih =>
    rw [runCmds, prodEq _ (runCmd_okEnv_noErr f w c)]
    exact ih _ (beginInv_runCmd f w c h)

theorem beginInv_runAttempt (f : Nat → Timestamp) (w : World) (att : Attempt)
    (h : beginInv w) : beginInv ((runAttempt (okEnv f) w att).1) := by
  obtain ⟨cmds, fin⟩ := att
  have h0 : beginInv { w with attempts := w.attempts + 1 } := h
  simp only [runAttempt]
  rw [prodEq _ (runCmds_okEnv_noErr f _ cmds)]
  cases fin with
  | ok => exact beginInv_runCmds f _ cmds h0
  | failWith e => exact beginInv_runCmds f _ cmds h0

theorem beginInv_execLoop (f : Nat → Timestamp) (att : Attempt)
    (rest : List Attempt) (w : World) (h : beginInv w) :
    beginInv ((execLoop (okEnv f) att rest w).1) := by
  induction rest generalizing att w with
  | nil =>
    rcases hA : runAttempt (okEnv f) w att with ⟨w1, r⟩
    have hI := beginInv_runAttempt f w att h
    rw [hA] at hI
    rw [execLoop, hA]
    cases r with
    | none =>
      by_cases hst : w1.st.status = TxnStatus.PENDING
      · simp only [hst, if_true]
        rw [txnSend_okEnv]
        exact beginInv_txnSendCore f w1 [] (some true) hI
      · simp only [hst, if_false]
        exact hI
    | some e =>
      by_cases hre : e.isRetryable = true
      · simp only [hre, if_true]
        exact hI
      · simp only [hre, if_false]
        exact hI
  | cons a rest1 ih =>
    rcases hA : runAttempt (okEnv f) w att with ⟨w1, r⟩
    have hI := beginInv_runAttempt f w att h
    rw [hA] at hI
    rw [execLoop, hA]
    cases r with
    | none =>
      by_cases hst : w1.st.status = TxnStatus.PENDING
      · simp only [hst, if_true]
        rw [txnSend_okEnv]
        exact beginInv_txnSendCore f w1 [] (some true) hI
      · simp only [hst, if_false]
        exact hI
    | some e =>
      by_cases hre : e.isRetryable = true
      · simp only [hre, if_true]
        exact ih a w1 hI
      · simp only [hre, if_false]
        exact hI

theorem beginInv_dbTxn (f : Nat → Timestamp) (att : Attempt)
    (rest : List Attempt) : beginInv ((dbTxn (okEnv f) att rest).1) := by
  have h0 : beginInv initialWorld := ⟨rfl, rfl⟩
  rcases hE : execLoop (okEnv f) att rest initialWorld with ⟨w1, r⟩
  have hI := beginInv_execLoop f att rest initialWorld h0
  rw [hE] at hI
  rw [dbTxn, hE]
  cases r with
  | none => exact hI
  | some e =>
    by_cases hst : w1.st.status = TxnStatus.PENDING
    · simp only [hst, if_true]
      exact beginInv_txnSendCore f w1 [] (some false) hI
    · simp only [hst, if_false]
      exact hI

/-- Retry-loop step: unfolding after a successful attempt. -/
theorem execLoop_step_ok (env : Env) (att : Attempt) (rest : List Attempt)
    (w wa : World) (hA : runAttempt env w att = (wa, none)) :
    execLoop env att rest w =
      if wa.st.status = TxnStatus.PENDING then
        match txnSend env wa [Req.endTxn true] with
        | (w2, none) => (w2, none)
        | (w2, some k) => (w2, some (Err.kind k))
      else (wa, none) := by
  rw [execLoop, hA]

/-- Retry-loop step: unfolding after a failed attempt. -/
theorem execLoop_step_err (env : Env) (att : Attempt) (rest : List Attempt)
    (w wa : World) (e : Err) (hA : runAttempt env w att = (wa, some e)) :
    execLoop env att rest w =
      if e.isRetryable then
        match rest with
        | [] => (wa, some e)
        | a :: rest1 => execLoop env a rest1 wa
      else (wa, some e) := by
  rw [execLoop, hA]

/-- Retry-loop step: the attempt succeeded and the transaction is still
pending, so the implicit commit decides the outcome. -/
theorem execLoop_step_ok_pending (env : Env) (att : Attempt)
    (rest : List Attempt) (w wa w2 : World) (r2 : Option ErrKind)
    (hA : runAttempt env w att = (wa, none))
    (hst : wa.st.status = TxnStatus.PENDING)
    (hC : txnSend env wa [Req.endTxn true] = (w2, r2)) :
    execLoop env att rest w = (w2, r2.map Err.kind) := by
  rw [execLoop_step_ok env att rest w wa hA, if_pos hst, hC]
  cases r2 <;> rfl

/-- Retry-loop step: the attempt succeeded with the transaction already
terminated inside the closure, so nothing further is sent. -/
theorem execLoop_step_ok_done (env : Env) (att : Attempt)
    (rest : List Attempt) (w wa : World)
    (hA : runAttempt env w att = (wa, none))
    (hst : ¬wa.st.status = TxnStatus.PENDING) :
    execLoop env att rest w = (wa, none) := by
  rw [execLoop_step_ok env att rest w wa hA, if_neg hst]

/-- Retry-loop step: the attempt failed and no retries remain. -/
theorem execLoop_step_err_last (env : Env) (att : Attempt) (w wa : World)
    (e : Err) (hA : runAttempt env w att = (wa, some e)) :
    execLoop env att [] w = (wa, some e) := by
  rw [execLoop_step_err env att [] w wa e hA]
  split <;> rfl

/-- Retry-loop step: the attempt failed with a retry signal and another
attempt remains, so the loop continues. -/
theorem execLoop_step_err_cons (env : Env) (att a : Attempt)
    (rest1 : List Attempt) (w wa : World) (e : Err)
    (hA : runAttempt env w att = (wa, some e))
    (hre : e.isRetryable = true) :
    execLoop env att (a :: rest1) w = execLoop env a rest1 wa := by
  rw [execLoop_step_err env att (a :: rest1) w wa e hA, if_pos hre]

/-- Retry-loop step: the attempt failed with a non-retryable error,
which surfaces immediately. -/
theorem execLoop_step_err_fatal (env : Env) (att : Attempt)
    (rest : List Attempt) (w wa : World) (e : Err)
    (hA : runAttempt env w att = (wa, some e))
    (hre : e.isRetryable = false) :
    execLoop env att rest w = (wa, some e) := by
  rw [execLoop_step_err env att rest w wa e hA, if_neg (by simp [hre])]

theorem isTerminal_of_ne_PENDING (s : TxnStatus)
    (h : ¬s = TxnStatus.PENDING) : s.isTerminal = true := by
  cases s <;> simp_all [TxnStatus.isTerminal]

/-- The implicit commit always leaves a COMMITTED record behind. -/
theorem commit_step_status (f : Nat → Timestamp) (w : World) :
    (txnSend (okEnv f) w [Req.endTxn true]).1.st.status
      = TxnStatus.COMMITTED := by
  by_cases hw : w.st.writing = true
  · rw [endTxn_step_writing f w true hw]; rfl
  · have hw1 : w.st.writing = false := by simpa using hw
    rw [endTxn_step_readonly f w true hw1]; rfl

/-- The cleanup abort always leaves an ABORTED record behind. -/
theorem rollbackQuiet_status (f : Nat → Timestamp) (w : World) :
    (rollbackQuiet (okEnv f) w).st.status = TxnStatus.ABORTED := by
  by_cases hw : w.st.writing = true
  · rw [rollbackQuiet_writing f w hw]
  · have hw1 : w.st.writing = false := by simpa using hw
    rw [rollbackQuiet_readonly f w hw1]

/-- When an attempt returns without error, whatever the retry loop then
returns carries a terminal status. -/
theorem execLoop_ok_terminal (f : Nat → Timestamp) (att : Attempt)
    (rest : List Attempt) (w wa w1 : World)
    (hA : runAttempt (okEnv f) w att = (wa, none))
    (hEq : execLoop (okEnv f) att rest w = (w1, none)) :
    w1.st.status.isTerminal = true := by
  by_cases hst : wa.st.status = TxnStatus.PENDING
  · have hterm := commit_step_status f wa
    rcases hC : txnSend (okEnv f) wa [Req.endTxn true] with ⟨w2, e2⟩
    rw [hC] at hterm
    rw [execLoop_step_ok_pending (okEnv f) att rest w wa w2 e2 hA hst hC]
      at hEq
    cases e2 with
    | none =>
      injection hEq with h1 h2
      rw [← h1]
      have : w2.st.status = TxnStatus.COMMITTED := hterm
      rw [this]
      rfl
    | some k => exact absurd hEq (by simp)
  · rw [execLoop_step_ok_done (okEnv f) att rest w wa hA hst] at hEq
    injection hEq with h1 h2
    rw [← h1]
    exact isTerminal_of_ne_PENDING _ hst

/-- When the retry loop ends without error, the transaction record is in
a terminal state. -/
theorem execLoop_none_terminal (f : Nat → Timestamp) (rest : List Attempt) :
    ∀ (att : Attempt) (w w1 : World),
      execLoop (okEnv f) att rest w = (w1, none) →
      w1.st.status.isTerminal = true := by
  induction rest with
  | nil =>
    intro att w w1 hEq
    rcases hA : runAttempt (okEnv f) w att with ⟨wa, ra⟩
    cases ra with
    | none => exact execLoop_ok_terminal f att [] w wa w1 hA hEq
    | some e =>
      rw [execLoop_step_err_last (okEnv f) att w wa e hA] at hEq
      exact absurd hEq (by simp)
  | cons a rest1 ih =>
    intro att w w1 hEq
    rcases hA : runAttempt (okEnv f) w att with ⟨wa, ra⟩
    cases ra with
    | none => exact execLoop_ok_terminal f att (a :: rest1) w wa w1 hA hEq
    | some e =>
      by_cases hre : e.isRetryable = true
      · rw [execLoop_step_err_cons (okEnv f) att a rest1 w wa e hA hre] at hEq
        exact ih a wa w1 hEq
      · have hre1 : e.isRetryable = false := by simpa using hre
        rw [execLoop_step_err_fatal (okEnv f) att (a :: rest1) w wa e hA hre1]
          at hEq
        exact absurd hEq (by simp)

/-- Whatever `DB.Txn` returns, the transaction record is terminal. -/
theorem dbTxn_terminal (f : Nat → Timestamp) (att : Attempt)
    (rest : List Attempt) :
    ((dbTxn (okEnv f) att rest).1).st.status.isTerminal = true := by
  rcases hE : execLoop (okEnv f) att rest initialWorld with ⟨w1, r⟩
  rw [dbTxn, hE]
  cases r with
  | none => exact execLoop_none_terminal f rest att initialWorld w1 hE
  | some e =>
    by_cases hst : w1.st.status = TxnStatus.PENDING
    · simp only [hst, if_true]
      rw [rollbackQuiet_status f w1]
      rfl
    · simp only [hst, if_false]
      exact isTerminal_of_ne_PENDING _ hst

theorem tsLess_iff (t u : Timestamp) :
    Timestamp.less t u = true ↔
      (t.wallTime < u.wallTime
        ∨ (t.wallTime = u.wallTime ∧ t.logical < u.logical)) := by
  simp [Timestamp.less, Nat.blt_eq]

theorem tsLe_iff (t u : Timestamp) :
    Timestamp.le t u = true ↔
      (t.wallTime < u.wallTime
        ∨ (t.wallTime = u.wallTime ∧ t.logical ≤ u.logical)) := by
  simp [Timestamp.le, Nat.blt_eq, Nat.ble_eq]

theorem tsLe_refl (t : Timestamp) : Timestamp.le t t = true := by
  rw [tsLe_iff]
  omega

theorem tsLe_trans (a b c : Timestamp) (h1 : Timestamp.le a b = true)
    (h2 : Timestamp.le b c = true) : Timestamp.le a c = true := by
  rw [tsLe_iff] at h1 h2 ⊢
  omega

theorem tsLe_forward_left (t u : Timestamp) :
    Timestamp.le t (Timestamp.forward t u) = true := by
  rw [Timestamp.forward]
  by_cases h : Timestamp.less t u = true
  · rw [if_pos h]
    rw [tsLess_iff] at h
    rw [tsLe_iff]
    omega
  · rw [if_neg h]
    exact tsLe_refl t

theorem tsLe_forward_right (t u : Timestamp) :
    Timestamp.le u (Timestamp.forward t u) = true := by
  rw [Timestamp.forward]
  by_cases h : Timestamp.less t u = true
  · rw [if_pos h]
    exact tsLe_refl u
  · rw [if_neg h]
    have h1 : ¬(t.wallTime < u.wallTime
        ∨ (t.wallTime = u.wallTime ∧ t.logical < u.logical)) := by
      rw [← tsLess_iff]
      simpa using h
    rw [tsLe_iff]
    omega

theorem forward_cases (t u : Timestamp) :
    Timestamp.forward t u = t ∨ Timestamp.forward t u = u := by
  rw [Timestamp.forward]
  split
  · exact Or.inr rfl
  · exact Or.inl rfl

theorem ts_setLocalStatus (w : World) (oc : Option Bool) :
    (setLocalStatus w oc).st.ts = w.st.ts := by
  cases oc with
  | none => rfl
  | some c => cases c <;> rfl

/-- Each round trip, successful or not, never lowers the locally held
timestamp, whatever the Sender does. -/
theorem tsLe_dbSend (env : Env) (w : World) (b : List Req) :
    Timestamp.le w.st.ts ((dbSend env w b).1.st.ts) = true := by
  cases hS : env.sender w.nSends b with
  | ok t =>
    rw [dbSend, hS]
    exact tsLe_forward_left w.st.ts t
  | fail k =>
    rw [dbSend, hS]
    by_cases hk : k = ErrKind.transactionAborted
    · simp only [hk, if_pos]
      exact tsLe_refl _
    · simp only [if_neg hk]
      exact tsLe_refl _

theorem tsLe_setLocal_self (w : World) (oc : Option Bool) :
    Timestamp.le w.st.ts ((setLocalStatus w oc).st.ts) = true := by
  rw [ts_setLocalStatus]
  exact tsLe_refl _

theorem tsLe_after_dbSend (env : Env) (w w1 : World) (b : List Req)
    (r : Option ErrKind) (heq : dbSend env w b = (w1, r)) :
    Timestamp.le w.st.ts w1.st.ts = true := by
  have h := tsLe_dbSend env w b
  rw [heq] at h
  exact h

theorem tsLe_after_dbSend_setLocal (env : Env) (w w1 : World) (b : List Req)
    (r : Option ErrKind) (oc : Option Bool) (heq : dbSend env w b = (w1, r)) :
    Timestamp.le w.st.ts ((setLocalStatus w1 oc).st.ts) = true := by
  rw [ts_setLocalStatus]
  exact tsLe_after_dbSend env w w1 b r heq

theorem tsLe_txnSendCore (env : Env) (w : World) (b : List Req) :
    Timestamp.le w.st.ts ((txnSendCore env w b).1.st.ts) = true := by
  simp only [txnSendCore]
  repeat' split
  all_goals first
    | exact tsLe_refl _
    | exact tsLe_setLocal_self w _
    | (rename_i heq
       first
       | exact tsLe_after_dbSend env w _ _ _ heq
       | exact tsLe_after_dbSend_setLocal env w _ _ _ _ heq)

theorem tsLe_rollbackQuiet (env : Env) (w : World) :
    Timestamp.le w.st.ts ((rollbackQuiet env w).st.ts) = true :=
  tsLe_txnSendCore env w [Req.endTxn false]

theorem tsLe_txnSend (env : Env) (w : World) (b : List Req) :
    Timestamp.le w.st.ts ((txnSend env w b).1.st.ts) = true := by
  simp only [txnSend]
  split
  next w1 heq =>
    have h := tsLe_txnSendCore env w b
    rw [heq] at h
    exact h
  next w1 k heq =>
    have h := tsLe_txnSendCore env w b
    rw [heq] at h
    split
    · exact tsLe_trans _ _ _ h (tsLe_rollbackQuiet env w1)
    · exact h

theorem tsLe_runCmd (env : Env) (w : World) (c : Cmd) :
    Timestamp.le w.st.ts ((runCmd env w c).1.st.ts) = true := by
  cases c <;> exact tsLe_txnSend env w _

/-- Across any sequence of closure steps, under any Sender behaviour,
the locally held timestamp never decreases. -/
theorem tsLe_runCmds (env : Env) (w : World) (cs : List Cmd) :
    Timestamp.le w.st.ts ((runCmds env w cs).1.st.ts) = true := by
  induction cs generalizing w with
  | nil => exact tsLe_refl _
  | cons c cs1 ih =>
    rcases hc : runCmd env w c with ⟨w1, r⟩
    have h := tsLe_runCmd env w c
    rw [hc] at h
    cases r with
    | none =>
      rw [runCmds, hc]
      exact tsLe_trans _ _ _ h (ih w1)
    | some k =>
      rw [runCmds, hc]
      exact h

theorem batchEtFlags_append (l1 l2 : List Req) :
    batchEtFlags (l1 ++ l2) = batchEtFlags l1 ++ batchEtFlags l2 := by
  simp [batchEtFlags]

theorem batchEtFlags_mapOps (ops : List UserOp) :
    batchEtFlags (ops.map opReq) = [] := by
  induction ops with
  | nil => rfl
  | cons o rest ih =>
    have h : (fun r => match r with
        | Req.endTxn c => some c
        | _ => none) (opReq o) = (none : Option Bool) := by
      cases o <;> rfl
    simp only [batchEtFlags, List.map_cons, List.filterMap_cons, h]
    exact ih

theorem batchEtFlags_nfBatch_some (ops : List UserOp) (c : Bool) :
    batchEtFlags (nfBatch ops (some c)) = [c] := by
  have h := batchEtFlags_mapOps ops
  simp only [nfBatch, etOpt, batchEtFlags_append, h]
  rfl

theorem batchEtFlags_cons_none (r : Req) (rest : List Req)
    (h : r.isEndTxn = false) :
    batchEtFlags (r :: rest) = batchEtFlags rest := by
  cases r <;> simp_all [batchEtFlags, Req.isEndTxn]

theorem batchEtFlags_cons_some (c : Bool) (rest : List Req) :
    batchEtFlags (Req.endTxn c :: rest) = c :: batchEtFlags rest := rfl

theorem batchEtFlags_insertBegin (b : List Req) :
    batchEtFlags (insertBegin b) = batchEtFlags b := by
  induction b with
  | nil => rfl
  | cons r rest ih =>
    by_cases hr : r.isMutatingOp = true
    · rw [insertBegin, if_pos hr, batchEtFlags_cons_none Req.beginTxn _ rfl]
    · rw [insertBegin, if_neg hr]
      cases r <;> simpa [batchEtFlags] using ih

theorem runCmds_append_okEnv (f : Nat → Timestamp) (w : World)
    (cs1 cs2 : List Cmd) :
    runCmds (okEnv f) w (cs1 ++ cs2)
      = runCmds (okEnv f) (runCmds (okEnv f) w cs1).1 cs2 := by
  induction cs1 generalizing w with
  | nil => rfl
  | cons c cs ih =>
    simp only [List.cons_append, runCmds]
    rw [prodEq _ (runCmd_okEnv_noErr f w c)]
    exact ih _

theorem lastEndTxn_cons_cons (r1 r2 : Req) (rest : List Req) :
    lastEndTxn (r1 :: r2 :: rest) = lastEndTxn (r2 :: rest) := by
  simp [lastEndTxn, List.getLast?_cons_cons]

theorem insertBegin_cons (b : List Req) (hb : b ≠ []) :
    ∃ y ys, insertBegin b = y :: ys := by
  cases b with
  | nil => exact absurd rfl hb
  | cons r rest =>
    by_cases hr : r.isMutatingOp = true
    · exact ⟨Req.beginTxn, r :: rest, by simp [insertBegin, hr]⟩
    · have hr1 : r.isMutatingOp = false := by simpa using hr
      exact ⟨r, insertBegin rest, by simp [insertBegin, hr1]⟩

theorem lastEndTxn_insertBegin (b : List Req) :
    lastEndTxn (insertBegin b) = lastEndTxn b := by
  induction b with
  | nil => rfl
  | cons r rest ih =>
    by_cases hr : r.isMutatingOp = true
    · simp only [insertBegin, hr, if_true]
      exact lastEndTxn_cons_cons Req.beginTxn r rest
    · have hr1 : r.isMutatingOp = false := by simpa using hr
      simp only [insertBegin, hr1, Bool.false_eq_true, if_false]
      cases rest with
      | nil => rfl
      | cons a t =>
        obtain ⟨y, ys, hy⟩ := insertBegin_cons (a :: t) (by simp)
        rw [hy, lastEndTxn_cons_cons, lastEndTxn_cons_cons, ← hy, ih]

theorem isTerminal_setLocal_some (w : World) (c : Bool) :
    ((setLocalStatus w (some c)).st.status).isTerminal = true := by
  cases c <;> rfl

theorem trace_setLocalStatus (w : World) (oc : Option Bool) :
    (setLocalStatus w oc).trace = w.trace := by
  cases oc with
  | none => rfl
  | some c => cases c <;> rfl

/-- Sending a batch that ends with a terminal marker through `Txn.send`
against an always-succeeding Sender: no error escapes, the resulting
status is terminal, and at most one end-transaction marker is added to
the transmission. -/
theorem txnSend_nf_terminal (f : Nat → Timestamp) (w : World)
    (ops : List UserOp) (c : Bool) :
    (txnSend (okEnv f) w (nfBatch ops (some c))).2 = none ∧
    ((txnSend (okEnv f) w (nfBatch ops (some c))).1).st.status.isTerminal
      = true ∧
    (etFlags ((txnSend (okEnv f) w (nfBatch ops (some c))).1).trace).length
      ≤ (etFlags w.trace).length + 1 := by
  have hle : lastEndTxn (nfBatch ops (some c)) = some c :=
    lastEndTxn_nfBatch ops (some c)
  have hne : (nfBatch ops (some c)).isEmpty = false :=
    isEmpty_false_of_lastEndTxn _ c hle
  have key : ((txnSendCore (okEnv f) w
          (nfBatch ops (some c))).1).st.status.isTerminal = true ∧
      (etFlags ((txnSendCore (okEnv f) w
          (nfBatch ops (some c))).1).trace).length
        ≤ (etFlags w.trace).length + 1 := by
    by_cases hw : w.st.writing = true
    · rw [txnSendCore_writing f w _ hne hw, dbSend_okEnv, hle]
      constructor
      · cases c <;> rfl
      · rw [etFlags_append, batchEtFlags_nfBatch_some]
        simp
    · have hw1 : w.st.writing = false := by simpa using hw
      by_cases hm : hasMutating (nfBatch ops (some c)) = true
      · rw [txnSendCore_fresh_mutating f w _ hw1 hm, dbSend_okEnv,
          lastEndTxn_insertBegin, hle]
        constructor
        · cases c <;> rfl
        · rw [etFlags_append, batchEtFlags_insertBegin,
            batchEtFlags_nfBatch_some]
          simp
      · have hm1 : hasMutating (nfBatch ops (some c)) = false := by
          simpa using hm
        by_cases hd : (nfBatch ops (some c)).dropLast.isEmpty = true
        · rw [txnSendCore_elide_empty f w _ c hw1 hm1 hle hd]
          constructor
          · exact isTerminal_setLocal_some w c
          · simp [trace_setLocalStatus]
        · have hd1 : (nfBatch ops (some c)).dropLast.isEmpty = false := by
            simpa using hd
          rw [txnSendCore_elide_reads f w _ c hw1 hm1 hle hd1,
            dropLast_nfBatch_some]
          constructor
          · exact isTerminal_setLocal_some _ c
          · rw [show (setLocalStatus
                (dbSend (okEnv f) w (ops.map opReq)).1 (some c), (none
                  : Option ErrKind)).1.trace
                = ((dbSend (okEnv f) w (ops.map opReq)).1).trace from
                trace_setLocalStatus _ (some c), dbSend_okEnv,
              etFlags_append, batchEtFlags_mapOps]
            simp
  rw [txnSend_okEnv]
  exact ⟨rfl, key.1, key.2⟩

/-- Every explicit termination step succeeds under an always-succeeding
Sender, leaves a terminal status, and adds at most one end-transaction
marker to the transmission. -/
theorem termCmd_step (f : Nat → Timestamp) (w : World) (t : TermCmd) :
    (runCmd (okEnv f) w t.toCmd).2 = none ∧
    ((runCmd (okEnv f) w t.toCmd).1).st.status.isTerminal = true ∧
    (etFlags ((runCmd (okEnv f) w t.toCmd).1).trace).length
      ≤ (etFlags w.trace).length + 1 := by
  cases t with
  | commit =>
    simp only [TermCmd.toCmd, runCmd, commitBatch_nf]
    exact txnSend_nf_terminal f w [] true
  | rollback =>
    simp only [TermCmd.toCmd, runCmd, rollbackBatch_nf]
    exact txnSend_nf_terminal f w [] false
  | commitInBatch ops oc =>
    simp only [TermCmd.toCmd, runCmd, commitInBatchReqs_eq]
    exact txnSend_nf_terminal f w ops (oc.getD true)

theorem ne_PENDING_of_isTerminal (s : TxnStatus) (h : s.isTerminal = true) :
    ¬s = TxnStatus.PENDING := by
  cases s <;> simp_all [TxnStatus.isTerminal]

end Lemmas

/-- C2: a begin-transaction marker is emitted at most once per
transaction, lazily, in the first batch that contains a mutating
operation and positioned immediately before that first mutation; batches
containing only reads never carry a begin marker (the trace discipline
`traceBeginOk`), and the Get-then-Put closure yields exactly the sent
sequence [Get, BeginTransaction, Put, EndTransaction(commit=true)]. -/
theorem claim_C2_begin_marker_discipline (f : Nat → Timestamp)
    (att : Attempt) (rest : List Attempt) :
    traceBeginOk false ((dbTxn (okEnv f) att rest).1.trace) = true ∧
    sentReqs (dbTxn constOkEnv ⟨[Cmd.doOp .get, Cmd.doOp .put],
        Finish.ok⟩ []).1.trace
      = [Req.get, Req.beginTxn, Req.put, Req.endTxn true] :=
  ⟨(beginInv_dbTxn f att rest).2, by decide⟩

/-- C4: for every closure that issues only (successful) operations and
then returns a non-retryable plain error, `db.Txn` surfaces the very
same error, and exactly one end-transaction(commit=false) request is
sent when at least one write was sent; with zero writes no
end-transaction request is sent at all. -/
theorem claim_C4_abort_handling (f : Nat → Timestamp) (ops : List UserOp)
    (n : Nat) :
    (dbTxn (okEnv f) ⟨ops.map Cmd.doOp, Finish.failWith (Err.plain n)⟩ []).2
      = some (Err.plain n) ∧
    etFlags (dbTxn (okEnv f)
        ⟨ops.map Cmd.doOp, Finish.failWith (Err.plain n)⟩ []).1.trace
      = (if ops.any UserOp.isMutating then [false] else []) := by
  obtain ⟨h1, h2, h3, h4, h5⟩ :=
    opsRun f ops { initialWorld with attempts := initialWorld.attempts + 1 }
  have hE := prodEq _ h1
  set w1 := (runCmds (okEnv f)
    { initialWorld with attempts := initialWorld.attempts + 1 }
    (ops.map Cmd.doOp)).1 with hw1
  have hrunA : runAttempt (okEnv f) initialWorld
      ⟨ops.map Cmd.doOp, Finish.failWith (Err.plain n)⟩
      = (w1, some (Err.plain n)) := by
    simp [runAttempt, hE]
  have hstatus : w1.st.status = TxnStatus.PENDING := by
    rw [h2]; rfl
  have hwriting : w1.st.writing = ops.any UserOp.isMutating := by
    rw [h3]; rfl
  have hflags : etFlags w1.trace = [] := by
    rw [h4]; rfl
  cases hm : ops.any UserOp.isMutating with
  | true =>
    have hw : w1.st.writing = true := by rw [hwriting, hm]
    have hrb := rollbackQuiet_writing f w1 hw
    simp [dbTxn, execLoop, hrunA, hstatus, Err.isRetryable, hrb,
      etFlags_append, hflags]
    rfl
  | false =>
    have hw : w1.st.writing = false := by rw [hwriting, hm]
    have hrb := rollbackQuiet_readonly f w1 hw
    simp [dbTxn, execLoop, hrunA, hstatus, Err.isRetryable, hrb, hflags]

/-- C1: for every transaction run via `db.Txn` whose closure completes
successfully without issuing an explicit terminal marker, exactly one
end-transaction(commit=true) request is sent if and only if at least one
mutating operation was sent during the transaction; if only reads or
nothing were sent, zero end-transaction requests occur (and the call
succeeds). -/
theorem claim_C1_implicit_commit (f : Nat → Timestamp) (ops : List UserOp) :
    (dbTxn (okEnv f) ⟨ops.map Cmd.doOp, Finish.ok⟩ []).2 = none ∧
    etFlags (dbTxn (okEnv f) ⟨ops.map Cmd.doOp, Finish.ok⟩ []).1.trace
      = (if ops.any UserOp.isMutating then [true] else []) := by
  obtain ⟨h1, h2, h3, h4, h5⟩ :=
    opsRun f ops { initialWorld with attempts := initialWorld.attempts + 1 }
  have hE := prodEq _ h1
  set w1 := (runCmds (okEnv f) { initialWorld with attempts := initialWorld.attempts + 1 }
    (ops.map Cmd.doOp)).1 with hw1
  have hrunA : runAttempt (okEnv f) initialWorld ⟨ops.map Cmd.doOp, Finish.ok⟩
      = (w1, none) := by
    simp [runAttempt, hE]
  have hstatus : w1.st.status = TxnStatus.PENDING := by
    rw [h2]; rfl
  have hwriting : w1.st.writing = ops.any UserOp.isMutating := by
    rw [h3]; rfl
  have hflags : etFlags w1.trace = [] := by
    rw [h4]; rfl
  cases hm : ops.any UserOp.isMutating with
  | true =>
    have hw : w1.st.writing = true := by rw [hwriting, hm]
    have hcommit := endTxn_step_writing f w1 true hw
    simp [dbTxn, execLoop, hrunA, hstatus, hcommit, etFlags_append, hflags]
    rfl
  | false =>
    have hw : w1.st.writing = false := by rw [hwriting, hm]
    have hcommit := endTxn_step_readonly f w1 true hw
    simp [dbTxn, execLoop, hrunA, hstatus, hcommit, hflags]

/-- C9: once a logical transaction call returns, the status is never
PENDING (first conjunct, over arbitrary closures and retry budgets); a
successful call leaves COMMITTED — including the implicit no-write
commit — and a failed non-retryable call leaves ABORTED (second and
third conjuncts); and the explicit Commit/Rollback scenarios of
`TestTransactionStatus` end COMMITTED resp. ABORTED whether or not the
transaction wrote (last conjunct). -/
theorem claim_C9_status_invariant :
    (∀ (f : Nat → Timestamp) (att : Attempt) (rest : List Attempt),
        ((dbTxn (okEnv f) att rest).1).st.status.isTerminal = true)
    ∧ (∀ (f : Nat → Timestamp) (ops : List UserOp),
        ((dbTxn (okEnv f) ⟨ops.map Cmd.doOp, Finish.ok⟩ []).1).st.status
          = TxnStatus.COMMITTED)
    ∧ (∀ (f : Nat → Timestamp) (ops : List UserOp) (n : Nat),
        ((dbTxn (okEnv f)
            ⟨ops.map Cmd.doOp, Finish.failWith (Err.plain n)⟩ []).1).st.status
          = TxnStatus.ABORTED)
    ∧ (∀ wr cm : Bool,
        (runCmds constOkEnv initialWorld
            ([Cmd.doOp .get]
              ++ (if wr then [Cmd.doOp .put] else [])
              ++ [if cm then Cmd.doCommit else Cmd.doRollback])).1.st.status
          = (if cm then TxnStatus.COMMITTED else TxnStatus.ABORTED)) := by
  refine ⟨fun f att rest => dbTxn_terminal f att rest, ?_, ?_, ?_⟩
  · intro f ops
    obtain ⟨h1, h2, h3, h4, h5⟩ :=
      opsRun f ops { initialWorld with attempts := initialWorld.attempts + 1 }
    have hE := prodEq _ h1
    set w1 := (runCmds (okEnv f)
      { initialWorld with attempts := initialWorld.attempts + 1 }
      (ops.map Cmd.doOp)).1 with hw1
    have hrunA : runAttempt (okEnv f) initialWorld
        ⟨ops.map Cmd.doOp, Finish.ok⟩ = (w1, none) := by
      simp [runAttempt, hE]
    have hstatus : w1.st.status = TxnStatus.PENDING := by
      rw [h2]; rfl
    have hC := txnSend_okEnv f w1 [Req.endTxn true]
    have hload := execLoop_step_ok_pending (okEnv f)
      ⟨ops.map Cmd.doOp, Finish.ok⟩ [] initialWorld w1
      ((txnSendCore (okEnv f) w1 [Req.endTxn true]).1) none hrunA hstatus hC
    rw [dbTxn, hload]
    have hcs := commit_step_status f w1
    rw [hC] at hcs
    exact hcs
  · intro f ops n
    obtain ⟨h1, h2, h3, h4, h5⟩ :=
      opsRun f ops { initialWorld with attempts := initialWorld.attempts + 1 }
    have hE := prodEq _ h1
    set w1 := (runCmds (okEnv f)
      { initialWorld with attempts := initialWorld.attempts + 1 }
      (ops.map Cmd.doOp)).1 with hw1
    have hrunA : runAttempt (okEnv f) initialWorld
        ⟨ops.map Cmd.doOp, Finish.failWith (Err.plain n)⟩
        = (w1, some (Err.plain n)) := by
      simp [runAttempt, hE]
    have hstatus : w1.st.status = TxnStatus.PENDING := by
      rw [h2]; rfl
    have hload := execLoop_step_err_fatal (okEnv f)
      ⟨ops.map Cmd.doOp, Finish.failWith (Err.plain n)⟩ [] initialWorld w1
      (Err.plain n) hrunA rfl
    rw [dbTxn, hload]
    show (if w1.st.status = TxnStatus.PENDING then rollbackQuiet (okEnv f) w1
          else w1).st.status = TxnStatus.ABORTED
    rw [if_pos hstatus]
    exact rollbackQuiet_status f w1
  · intro wr cm
    cases wr <;> cases cm <;> decide

/-- C5: when the Sender fails the first round trip of a Put with a
retryable kind, `db.Txn` re-invokes the closure and returns nil (two
closure invocations, three round trips, one commit); when it fails with
a fatal kind, the closure is not re-invoked (one invocation, one round
trip, no end-transaction) and `db.Txn` surfaces an error of the same
kind unchanged. -/
theorem claim_C5_retry_classification (k : ErrKind) :
    (dbTxn (failFirstEnv k) ⟨[Cmd.doOp .put], Finish.ok⟩
        [⟨[Cmd.doOp .put], Finish.ok⟩]).2
      = (if k.isRetryable then none else some (Err.kind k)) ∧
    (dbTxn (failFirstEnv k) ⟨[Cmd.doOp .put], Finish.ok⟩
        [⟨[Cmd.doOp .put], Finish.ok⟩]).1.attempts
      = (if k.isRetryable then 2 else 1) ∧
    (dbTxn (failFirstEnv k) ⟨[Cmd.doOp .put], Finish.ok⟩
        [⟨[Cmd.doOp .put], Finish.ok⟩]).1.nSends
      = (if k.isRetryable then 3 else 1) ∧
    etFlags (dbTxn (failFirstEnv k) ⟨[Cmd.doOp .put], Finish.ok⟩
        [⟨[Cmd.doOp .put], Finish.ok⟩]).1.trace
      = (if k.isRetryable then [true] else []) := by
  cases k <;> decide

/-- C6: when an explicit end-transaction(commit=true) fails with kind
`k`, the client sends an explicit end-transaction(commit=false) abort
before surfacing the error — except when `k` is the transaction-aborted
kind, in which case no abort round trip follows (the reset transaction
record elides it); the original error is surfaced either way. -/
theorem claim_C6_commit_failure_aborts (k : ErrKind) :
    (runCmds (commitFailEnv k) initialWorld
        [Cmd.doOp .put, Cmd.doCommit]).2 = some k ∧
    etFlags (runCmds (commitFailEnv k) initialWorld
        [Cmd.doOp .put, Cmd.doCommit]).1.trace
      = (if k = ErrKind.transactionAborted then [true] else [true, false]) := by
  cases k <;> decide

/-- C8: a closure that writes, returns a retry signal once, and on its
second invocation performs no further operations and returns nil, yields
exactly the sent sequence [BeginTransaction, Put,
EndTransaction(commit=true)], two closure invocations, and a nil
result — the commit is still sent because the transaction wrote during
the first attempt. -/
theorem claim_C8_write_retry_readonly_commit :
    (dbTxn constOkEnv
        ⟨[Cmd.doOp .put], Finish.failWith (Err.kind .transactionRetry)⟩
        [⟨[], Finish.ok⟩]).2 = none ∧
    sentReqs (dbTxn constOkEnv
        ⟨[Cmd.doOp .put], Finish.failWith (Err.kind .transactionRetry)⟩
        [⟨[], Finish.ok⟩]).1.trace
      = [Req.beginTxn, Req.put, Req.endTxn true] ∧
    (dbTxn constOkEnv
        ⟨[Cmd.doOp .put], Finish.failWith (Err.kind .transactionRetry)⟩
        [⟨[], Finish.ok⟩]).1.attempts = 2 := by
  decide

/-- C3: a closure that explicitly terminates its transaction — via
CommitInBatch, Commit, or Rollback after any sequence of operations —
succeeds with no additional terminal marker from the coordinator, so at
most one end-transaction marker is ever sent, including when the
caller-supplied batch is read-only or empty; and `CommitInBatch`
appends an end-transaction(commit=true) marker to the caller's batch
exactly when the batch does not already end with a terminal marker
(last two conjuncts). -/
theorem claim_C3_explicit_termination (f : Nat → Timestamp)
    (preOps : List UserOp) (t : TermCmd) :
    (dbTxn (okEnv f) ⟨preOps.map Cmd.doOp ++ [t.toCmd], Finish.ok⟩ []).2
      = none ∧
    (etFlags (dbTxn (okEnv f)
        ⟨preOps.map Cmd.doOp ++ [t.toCmd], Finish.ok⟩ []).1.trace).length
      ≤ 1 ∧
    (∀ ops : List UserOp,
        commitInBatchReqs ops none = ops.map opReq ++ [Req.endTxn true]) ∧
    (∀ (ops : List UserOp) (c : Bool),
        commitInBatchReqs ops (some c) = ops.map opReq ++ [Req.endTxn c]) := by
  have hcn : ∀ ops : List UserOp,
      commitInBatchReqs ops none = ops.map opReq ++ [Req.endTxn true] := by
    intro ops
    rw [commitInBatchReqs_eq]
    rfl
  have hcs : ∀ (ops : List UserOp) (c : Bool),
      commitInBatchReqs ops (some c) = ops.map opReq ++ [Req.endTxn c] := by
    intro ops c
    rw [commitInBatchReqs_eq]
    rfl
  obtain ⟨h1, h2, h3, h4, h5⟩ :=
    opsRun f preOps { initialWorld with attempts := initialWorld.attempts + 1 }
  have hE := prodEq _ h1
  set w1 := (runCmds (okEnv f)
    { initialWorld with attempts := initialWorld.attempts + 1 }
    (preOps.map Cmd.doOp)).1 with hw1
  obtain ⟨t1, t2, t3⟩ := termCmd_step f w1 t
  have hE2 := prodEq _ t1
  set w2 := (runCmd (okEnv f) w1 t.toCmd).1 with hw2
  have hflags1 : etFlags w1.trace = [] := by
    rw [h4]
    rfl
  have hcmds : runCmds (okEnv f)
      { initialWorld with attempts := initialWorld.attempts + 1 }
      (preOps.map Cmd.doOp ++ [t.toCmd]) = (w2, none) := by
    rw [runCmds_append_okEnv, ← hw1, runCmds, hE2]
    rfl
  have hA : runAttempt (okEnv f) initialWorld
      ⟨preOps.map Cmd.doOp ++ [t.toCmd], Finish.ok⟩ = (w2, none) := by
    simp [runAttempt, hcmds]
  have hst2 : ¬w2.st.status = TxnStatus.PENDING :=
    ne_PENDING_of_isTerminal _ t2
  rw [dbTxn, execLoop_step_ok_done (okEnv f)
    ⟨preOps.map Cmd.doOp ++ [t.toCmd], Finish.ok⟩ [] initialWorld w2 hA hst2]
  rw [hflags1] at t3
  refine ⟨rfl, ?_, hcn, hcs⟩
  simpa using t3

/-- C7: after each Sender round trip the locally held timestamp equals
the maximum of its previous value and the Sender's returned timestamp —
it is at least both, and is one of the two — and across any sequence of
closure steps under any Sender behaviour the timestamp is monotonically
non-decreasing; a response carrying a smaller timestamp never lowers
it. -/
theorem claim_C7_timestamp_ratchet :
    (∀ (w : World) (b : List Req) (t : Timestamp),
        ((dbSend (okEnv fun _ => t) w b).1).st.ts
            = Timestamp.forward w.st.ts t
        ∧ Timestamp.le w.st.ts ((dbSend (okEnv fun _ => t) w b).1).st.ts
            = true
        ∧ Timestamp.le t ((dbSend (okEnv fun _ => t) w b).1).st.ts = true
        ∧ (((dbSend (okEnv fun _ => t) w b).1).st.ts = w.st.ts
            ∨ ((dbSend (okEnv fun _ => t) w b).1).st.ts = t))
    ∧ (∀ (env : Env) (w : World) (cs : List Cmd),
        Timestamp.le w.st.ts ((runCmds env w cs).1.st.ts) = true) := by
  constructor
  · intro w b t
    exact ⟨rfl, tsLe_forward_left w.st.ts t, tsLe_forward_right w.st.ts t,
      forward_cases w.st.ts t⟩
  · intro env w cs
    exact tsLe_runCmds env w cs

/-- C10: when a closure performs its writes through a caller-built
batch terminated with `CommitInBatch`, the whole transaction costs
exactly one Sender round trip: the begin marker, the writes, and the
end-transaction(commit=true) marker travel in that single batch, the
call succeeds, and no separate begin or commit round trip occurs. -/
theorem claim_C10_commitInBatch_single_send (f : Nat → Timestamp)
    (ops : List UserOp) (h : ops.any UserOp.isMutating = true) :
    (dbTxn (okEnv f) ⟨[Cmd.doCommitInBatch ops none], Finish.ok⟩ []).2 = none ∧
    (dbTxn (okEnv f)
        ⟨[Cmd.doCommitInBatch ops none], Finish.ok⟩ []).1.nSends = 1 ∧
    (dbTxn (okEnv f)
        ⟨[Cmd.doCommitInBatch ops none], Finish.ok⟩ []).1.trace
      = [insertBegin (ops.map opReq ++ [Req.endTxn true])] := by
  have hmb : hasMutating (nfBatch ops (some true)) = true := by
    rw [hasMutating_nfBatch]
    exact h
  have hw0 : ({ initialWorld with attempts := initialWorld.attempts + 1 }
      : World).st.writing = false := rfl
  have hcore := txnSendCore_fresh_mutating f
    { initialWorld with attempts := initialWorld.attempts + 1 }
    (nfBatch ops (some true)) hw0 hmb
  have hcb : commitInBatchReqs ops none = nfBatch ops (some true) := by
    rw [commitInBatchReqs_eq]
    rfl
  set W2 := (dbSend (okEnv f)
    { initialWorld with attempts := initialWorld.attempts + 1 }
    (insertBegin (nfBatch ops (some true)))).1 with hW2
  have hts : txnSend (okEnv f)
      { initialWorld with attempts := initialWorld.attempts + 1 }
      (commitInBatchReqs ops none) = (W2, none) := by
    rw [hcb, txnSend_okEnv, hcore]
  have hstat : W2.st.status = TxnStatus.COMMITTED := by
    rw [hW2, dbSend_okEnv, lastEndTxn_insertBegin, lastEndTxn_nfBatch]
  have hA : runAttempt (okEnv f) initialWorld
      ⟨[Cmd.doCommitInBatch ops none], Finish.ok⟩ = (W2, none) := by
    simp [runAttempt, runCmds, runCmd, hts]
  have hst2 : ¬W2.st.status = TxnStatus.PENDING := by
    rw [hstat]
    simp
  rw [dbTxn, execLoop_step_ok_done (okEnv f)
    ⟨[Cmd.doCommitInBatch ops none], Finish.ok⟩ [] initialWorld W2 hA hst2]
  refine ⟨rfl, ?_, ?_⟩
  · rw [hW2]
    rfl
  · rw [hW2]
    rfl

/-- Witness for C10 at the concrete batch [Put]: the single sent batch
is [BeginTransaction, Put, EndTransaction(commit=true)]. -/
theorem claim_C10_commitInBatch_single_send_witness :
    ([UserOp.put].any UserOp.isMutating = true) ∧
    ((dbTxn (okEnv fun _ => ts0)
        ⟨[Cmd.doCommitInBatch [UserOp.put] none], Finish.ok⟩ []).2 = none ∧
    (dbTxn (okEnv fun _ => ts0)
        ⟨[Cmd.doCommitInBatch [UserOp.put] none], Finish.ok⟩ []).1.nSends
      = 1 ∧
    (dbTxn (okEnv fun _ => ts0)
        ⟨[Cmd.doCommitInBatch [UserOp.put] none], Finish.ok⟩ []).1.trace
      = [insertBegin ([UserOp.put].map opReq ++ [Req.endTxn true])]) :=
  ⟨by decide, claim_C10_commitInBatch_single_send (fun _ => ts0) [UserOp.put]
    (by decide)⟩

end TxnClient
